import Mathlib

/-!
# Verification of the ARP lookup core (`@gibme/arp`)

Shallow embedding of `src/arp.ts` (current revision with the process-kill
timers; the older 2023 revision is embedded where a claim compares the two).
JavaScript strings are modelled as `List Char`; the JS string operations used
by the source (`split`, `filter(String)`, `join`, `replace`, `padStart`,
`toUpperCase`, `includes`) are modelled by the executable functions below with
the same semantics for the inputs the source feeds them.  Child processes are
modelled by their observable outcome (`ProcessResult`): exit code (`none`
standing for JavaScript's `null`, reported when the process dies from a
signal such as the timeout kill), accumulated stdout and accumulated stderr.
-/

/-- Convenience: the character list of a string literal. -/
def chars (s : String) : List Char := s.toList

/-- JS `s.split(sep)` for a single-character separator `sep`
(`"".split(sep) = [""]`; empty segments are kept). -/
def splitChar (sep : Char) : List Char → List (List Char)
  | [] => [[]]
  | c :: rest =>
    if c = sep then [] :: splitChar sep rest
    else (splitChar sep rest).modifyHead (fun seg => c :: seg)

/-- JS `s.split('\r\n')`: split on the two-character CRLF sequence,
leftmost-first and non-overlapping. -/
def splitCRLF : List Char → List (List Char)
  | [] => [[]]
  | '\r' :: '\n' :: rest => [] :: splitCRLF rest
  | c :: rest => (splitCRLF rest).modifyHead (fun seg => c :: seg)

/-- JS `parts.join(sep)` for an arbitrary (possibly empty) separator string. -/
def joinSep (sep : List Char) : List (List Char) → List Char
  | [] => []
  | [g] => g
  | g :: gs => g ++ sep ++ joinSep sep gs

/-- JS `line.split(' ').filter(String)`: split on the space character and
drop the empty tokens. -/
def tokens (l : List Char) : List (List Char) :=
  (splitChar ' ' l).filter (fun g => !g.isEmpty)

/-- JS `s.includes(pat)` (substring test). -/
def containsSub (s pat : List Char) : Bool :=
  match s with
  | [] => pat.isEmpty
  | _ :: rest => pat.isPrefixOf s || containsSub rest pat

/-- The ASCII lowercase/uppercase letter table. -/
def upperTable : List (Char × Char) :=
  [('a', 'A'), ('b', 'B'), ('c', 'C'), ('d', 'D'), ('e', 'E'), ('f', 'F'),
   ('g', 'G'), ('h', 'H'), ('i', 'I'), ('j', 'J'), ('k', 'K'), ('l', 'L'),
   ('m', 'M'), ('n', 'N'), ('o', 'O'), ('p', 'P'), ('q', 'Q'), ('r', 'R'),
   ('s', 'S'), ('t', 'T'), ('u', 'U'), ('v', 'V'), ('w', 'W'), ('x', 'X'),
   ('y', 'Y'), ('z', 'Z')]

/-- JS `String.prototype.toUpperCase`, restricted to ASCII (the only
characters the source ever uppercases are hex digits, separators and
table punctuation, all ASCII). -/
def jsToUpper (c : Char) : Char :=
  match upperTable.find? (fun p => p.1 == c) with
  | some p => p.2
  | none => c

/-- JS `mac.replace(dash, ':')` with the global flag: every `-` becomes `:`. -/
def dashToColon (s : List Char) : List Char :=
  s.map (fun c => if c = '-' then ':' else c)

/-- JS `octet.padStart(2, '0')`. -/
def padStart2 (g : List Char) : List Char :=
  List.replicate (2 - g.length) '0' ++ g

/-- The Darwin hardware-address normalization of the current revision:
`parts[3].split(':').map(octet => octet.padStart(2, '0')).join(':')`. -/
def newPadToken (t : List Char) : List Char :=
  joinSep [':'] ((splitChar ':' t).map padStart2)

/-- `replace(/^0:/g, '00:')` of the older revision: a leading `0:` gains a
zero (the `^` anchor fires at most once). -/
def padLeadOld (s : List Char) : List Char :=
  if s.take 2 = ['0', ':'] then '0' :: s else s

/-- `replace(/:0$/g, ':00')` of the older revision: a trailing `:0` gains a
zero (the `$` anchor fires at most once). -/
def padTrailOld (s : List Char) : List Char :=
  if s.reverse.take 2 = ['0', ':'] then s ++ ['0'] else s

/-- `replace(/:0:/g, ':00:')` of the older revision: left-to-right
non-overlapping scan, the matched trailing colon is consumed. -/
def replaceZeroMid : List Char → List Char
  | [] => []
  | [c] => [c]
  | [c, d] => [c, d]
  | c :: d :: e :: rest =>
    if c = ':' ∧ d = '0' ∧ e = ':' then
      ':' :: '0' :: '0' :: ':' :: replaceZeroMid rest
    else c :: replaceZeroMid (d :: e :: rest)

/-- `replace(/:([^:]{1}):/g, ':0$1:')` of the older revision: left-to-right
non-overlapping scan, the matched trailing colon is consumed. -/
def padSingleMid : List Char → List Char
  | [] => []
  | [c] => [c]
  | [c, d] => [c, d]
  | c :: d :: e :: rest =>
    if c = ':' ∧ d ≠ ':' ∧ e = ':' then
      ':' :: '0' :: d :: ':' :: padSingleMid rest
    else c :: padSingleMid (d :: e :: rest)

/-- The Darwin hardware-address normalization of the 2023 revision: the
chain of the four regex replacements, in source order. -/
def oldPadToken (t : List Char) : List Char :=
  padSingleMid (padTrailOld (replaceZeroMid (padLeadOld t)))

/-- The outcome of one child process: exit code as delivered to the JS
`close` handler (`none` models `null`, e.g. after a kill), accumulated
stdout and accumulated stderr. -/
structure ProcessResult where
  exitCode : Option Int
  stdout : List Char
  stderr : List Char
deriving DecidableEq, Repr

/-- The error taxonomy of the specification (§7).  The implementation
constructs `invalidAddress`, `unsupportedPlatform`, `processError`,
`notFound` and (by crashing on an undefined token) `typeError`; the spec
additionally lists a `timeout` error. -/
inductive ArpError where
  | invalidAddress (ip : List Char)
  | unsupportedPlatform
  | processError (file : List Char) (args : List (List Char))
      (code : Option Int) (errStream : List Char) (pingErr : List Char)
  | notFound (ip : List Char)
  | typeError
  | timeout
deriving DecidableEq, Repr

/-- `PROCESS_TIMEOUT = 10_000` (milliseconds): the delay after which
`withTimeout` kills a still-running child process. -/
def PROCESS_TIMEOUT : Nat := 10000

/-- The Linux strategy, given the accumulated ping stderr and the outcome of
`arp -n ip`.  Mirrors the `close` handler of `linux` in `src/arp.ts`. -/
def linux (ip pingErr : List Char) (arp : ProcessResult) :
    Except ArpError (List Char) :=
  if arp.exitCode ≠ some 0 then
    .error (.processError (chars "arp") [chars "arp", chars "-n", ip]
      arp.exitCode arp.stderr pingErr)
  else if 2 ≤ (splitChar '\n' arp.stdout).length then
    match (if (tokens ((splitChar '\n' arp.stdout).getD 1 [])).length = 5
        then (tokens ((splitChar '\n' arp.stdout).getD 1 []))[2]?
        else (tokens ((splitChar '\n' arp.stdout).getD 1 []))[1]?) with
    | some m => if m.isEmpty then .error (.notFound ip) else .ok (m.map jsToUpper)
    | none => .error (.notFound ip)
  else .error (.notFound ip)

/-- The scan of the Windows strategy over the table lines from index 3 on:
first line whose first token is exactly `ip` wins; a matching line without a
second token crashes (`parts[1]` is `undefined`). -/
def windowsScan (ip : List Char) : List (List Char) → Except ArpError (List Char)
  | [] => .error (.notFound ip)
  | line :: rest =>
    if (tokens line).head? = some ip then
      match (tokens line)[1]? with
      | some m => .ok ((dashToColon m).map jsToUpper)
      | none => .error .typeError
    else windowsScan ip rest

/-- The Windows strategy, given the accumulated ping stderr and the outcome
of `arp -a ip`.  Mirrors the `close` handler of `windows` in `src/arp.ts`. -/
def windows (ip pingErr : List Char) (arp : ProcessResult) :
    Except ArpError (List Char) :=
  if arp.exitCode ≠ some 0 then
    .error (.processError (chars "arp") [chars "arp", chars "-a", ip]
      arp.exitCode arp.stderr pingErr)
  else windowsScan ip ((splitCRLF arp.stdout).drop 3)

/-- The Darwin strategy, given the accumulated ping stderr and the outcome of
`arp -n ip`.  Mirrors the `close` handler of `macintosh` in `src/arp.ts`:
a non-zero (or null) exit code is fatal only when stderr is non-empty; a
missing token at index 3 crashes (`parts[3]` is `undefined`). -/
def macintosh (ip pingErr : List Char) (arp : ProcessResult) :
    Except ArpError (List Char) :=
  if arp.exitCode ≠ some 0 ∧ ¬arp.stderr.isEmpty then
    .error (.processError (chars "arp") [chars "arp", chars "-n", ip]
      arp.exitCode arp.stderr pingErr)
  else if (tokens arp.stdout)[3]? ≠ some (chars "no") then
    match (tokens arp.stdout)[3]? with
    | some t => .ok ((newPadToken t).map jsToUpper)
    | none => .error .typeError
  else .error (.notFound ip)

/-- The platform dispatch of `lookup`: the `process.platform.includes`
chain, in source order (`linux`, then `darwin`, then `win`). -/
def lookupStrategy (platform ip pingErr : List Char) (arp : ProcessResult) :
    Option (Except ArpError (List Char)) :=
  if containsSub platform (chars "linux") then some (linux ip pingErr arp)
  else if containsSub platform (chars "darwin") then some (macintosh ip pingErr arp)
  else if containsSub platform (chars "win") then some (windows ip pingErr arp)
  else none

/-- Modelled from the spec: Node's `net.isIP`, which is not part of the
repository sources.  "`ip` must be a syntactically valid IPv4 or IPv6
address (standard parser semantics: dotted-quad or colon-hex groups, no
partial/extra-octet forms accepted)."  Decimal octet of an IPv4 address:
1–3 digits, value ≤ 255, no leading zero. -/
def isDecOctet (g : List Char) : Bool :=
  !g.isEmpty && g.length ≤ 3 && g.all (fun c => (chars "0123456789").contains c)
    && (g.length = 1 || g.head? ≠ some '0')
    && g.foldl (fun a c => a * 10 + (c.toNat - 48)) 0 ≤ 255

/-- Modelled from the spec: IPv4 dotted-quad syntax (exactly four decimal
octets). -/
def isIPv4 (s : List Char) : Bool :=
  let ps := splitChar '.' s
  ps.length = 4 && ps.all isDecOctet

/-- A 16-bit colon-hex group of an IPv6 address: 1–4 hex digits. -/
def isHexGroup16 (g : List Char) : Bool :=
  !g.isEmpty && g.length ≤ 4
    && g.all (fun c => (chars "0123456789abcdefABCDEF").contains c)

/-- Modelled from the spec: IPv6 colon-hex syntax — eight hex groups, or a
single `::` compression replacing at least one group (embedded-IPv4 tails
are outside the spec's "colon-hex groups" wording and are rejected). -/
def isIPv6 (s : List Char) : Bool :=
  let gs := splitChar ':' s
  let ne := gs.filter (fun g => !g.isEmpty)
  let empties := gs.length - ne.length
  if empties = 0 then gs.length = 8 && gs.all isHexGroup16
  else
    containsSub s (chars "::") && !containsSub s (chars ":::")
      && ne.length ≤ 7 && ne.all isHexGroup16
      && ((empties = 1 && gs.head? ≠ some [] && gs.getLast? ≠ some [])
        || (empties = 2 && (gs.take 2 = [[], []] || (gs.reverse).take 2 = [[], []]))
        || (empties = 3 && gs = [[], [], []]))

/-- Modelled from the spec: `net.isIP` returns `4`, `6` or `0`. -/
def isIP (s : List Char) : Nat :=
  if isIPv4 s then 4 else if isIPv6 s then 6 else 0

/-- `lookup(ip, separator)`: validate, dispatch to the platform strategy,
then substitute the separator (`result.split(':').join(separator)`).
The second component counts the child processes spawned by the call
(each strategy spawns the echo probe and the table reader, i.e. two). -/
def lookup (platform pingErr : List Char) (arp : ProcessResult)
    (ip sep : List Char) : Except ArpError (List Char) × Nat :=
  if isIP ip = 0 then (.error (.invalidAddress ip), 0)
  else
    match lookupStrategy platform ip pingErr arp with
    | none => (.error .unsupportedPlatform, 0)
    | some (.error e) => (.error e, 2)
    | some (.ok m) => (.ok (joinSep sep (splitChar ':' m)), 2)

/-- The result object of the `default-gateway` library (its `gateway`
field may itself be absent). -/
structure GatewayResult where
  gateway : Option (List Char)
deriving DecidableEq, Repr

/-- `get_gateway_ipv4`: the `default-gateway` call is external, so its
outcome is a parameter; the `try`/`catch` of the source absorbs every
failure into a resolved `undefined`. -/
def get_gateway_ipv4 (call : Except (List Char) GatewayResult) :
    Except (List Char) (Option (List Char)) :=
  match call with
  | .ok r => .ok r.gateway
  | .error _ => .ok none

/-- `get_gateway_ipv6`: same shape as `get_gateway_ipv4`. -/
def get_gateway_ipv6 (call : Except (List Char) GatewayResult) :
    Except (List Char) (Option (List Char)) :=
  match call with
  | .ok r => .ok r.gateway
  | .error _ => .ok none

/-- The uppercase hex digits of the spec's regex `[0-9A-F]`. -/
def upHexChars : List Char := chars "0123456789ABCDEF"

/-- Hex digits of either case, as produced by the platform tables. -/
def ciHexChars : List Char := chars "0123456789abcdefABCDEF"

/-- The spec's regex `^([0-9A-F]{2}:){5}[0-9A-F]{2}$`: six colon-separated
groups of exactly two uppercase hex digits. -/
def macRegex (s : List Char) : Bool :=
  let gs := splitChar ':' s
  gs.length = 6 && gs.all (fun g => g.length = 2 && g.all (upHexChars.contains ·))

/-- The spec's regex `^[0-9A-F]{12}$`. -/
def macRegexNoSep (s : List Char) : Bool :=
  s.length = 12 && s.all (upHexChars.contains ·)

/-- A raw table token already in two-hex-digits-per-octet form, either
case: six colon-separated groups of exactly two hex digits. -/
def isMacTokenCI (s : List Char) : Bool :=
  let gs := splitChar ':' s
  gs.length = 6 && gs.all (fun g => g.length = 2 && g.all (ciHexChars.contains ·))

/-- A raw Darwin table token: six colon-separated groups of one or two hex
digits of either case. -/
def isMacTokenCIShort (s : List Char) : Bool :=
  let gs := splitChar ':' s
  gs.length = 6
    && gs.all (fun g => 1 ≤ g.length && g.length ≤ 2 && g.all (ciHexChars.contains ·))

/-! ## Structural lemmas about the string primitives -/

theorem splitChar_ne_nil (sep : Char) (s : List Char) : splitChar sep s ≠ [] := by
  induction s with
  | nil => simp [splitChar]
  | cons c rest ih =>
    rw [splitChar]
    split
    · simp
    · cases h : splitChar sep rest with
      | nil => exact (ih h).elim
      | cons seg segs => simp

theorem splitChar_of_not_mem {sep : Char} {g : List Char} (hg : sep ∉ g) :
    splitChar sep g = [g] := by
  induction g with
  | nil => rfl
  | cons c rest ih =>
    have hc : c ≠ sep := fun h => hg (h ▸ List.mem_cons_self c rest)
    have hrest : sep ∉ rest := fun h => hg (List.mem_cons_of_mem c h)
    rw [splitChar, if_neg hc, ih hrest]
    rfl

theorem splitChar_append_sep {sep : Char} {g : List Char} (hg : sep ∉ g)
    (s : List Char) : splitChar sep (g ++ sep :: s) = g :: splitChar sep s := by
  induction g with
  | nil => simp [splitChar]
  | cons c rest ih =>
    have hc : c ≠ sep := fun h => hg (h ▸ List.mem_cons_self c rest)
    have hrest : sep ∉ rest := fun h => hg (List.mem_cons_of_mem c h)
    rw [List.cons_append, splitChar, if_neg hc, ih hrest]
    rfl

theorem joinSep_cons_cons (sep g g' : List Char) (gs : List (List Char)) :
    joinSep sep (g :: g' :: gs) = g ++ sep ++ joinSep sep (g' :: gs) := rfl

theorem joinSep_splitChar (sep : Char) (s : List Char) :
    joinSep [sep] (splitChar sep s) = s := by
  induction s with
  | nil => rfl
  | cons c rest ih =>
    rw [splitChar]
    by_cases hc : c = sep
    · rw [if_pos hc]
      cases h : splitChar sep rest with
      | nil => exact (splitChar_ne_nil sep rest h).elim
      | cons seg segs =>
        rw [h] at ih
        rw [joinSep_cons_cons, hc]
        simpa using ih
    · rw [if_neg hc]
      cases h : splitChar sep rest with
      | nil => exact (splitChar_ne_nil sep rest h).elim
      | cons seg segs =>
        rw [h] at ih
        cases segs with
        | nil => simpa [joinSep] using congrArg (c :: ·) ih
        | cons s1 s2 =>
          rw [List.modifyHead_cons, joinSep_cons_cons]
          rw [joinSep_cons_cons] at ih
          simpa using congrArg (c :: ·) ih

theorem splitChar_joinSep {sep : Char} {gs : List (List Char)} (hne : gs ≠ [])
    (hg : ∀ g ∈ gs, sep ∉ g) :
    splitChar sep (joinSep [sep] gs) = gs := by
  induction gs with
  | nil => exact (hne rfl).elim
  | cons g rest ih =>
    cases rest with
    | nil => exact splitChar_of_not_mem (hg g (List.mem_cons_self g []))
    | cons g' rest' =>
      have hsplit : joinSep [sep] (g :: g' :: rest') =
          g ++ sep :: joinSep [sep] (g' :: rest') := by
        rw [joinSep_cons_cons]; simp
      rw [hsplit, splitChar_append_sep (hg g (List.mem_cons_self g _)),
        ih (by simp) (fun x hx => hg x (List.mem_cons_of_mem g hx))]

theorem not_mem_of_mem_splitChar {sep : Char} {s g : List Char}
    (hmem : g ∈ splitChar sep s) : sep ∉ g := by
  induction s generalizing g with
  | nil =>
    simp [splitChar] at hmem
    simp [hmem]
  | cons c rest ih =>
    rw [splitChar] at hmem
    by_cases hc : c = sep
    · rw [if_pos hc] at hmem
      rcases List.mem_cons.mp hmem with h | h
      · simp [h]
      · exact ih h
    · rw [if_neg hc] at hmem
      cases h : splitChar sep rest with
      | nil => exact (splitChar_ne_nil sep rest h).elim
      | cons seg segs =>
        rw [h, List.modifyHead_cons] at hmem
        rcases List.mem_cons.mp hmem with h' | h'
        · subst h'
          intro hin
          rcases List.mem_cons.mp hin with h'' | h''
          · exact hc h''.symm
          · exact ih (h ▸ List.mem_cons_self seg segs) h''
        · exact ih (h ▸ List.mem_cons_of_mem seg h')

theorem splitChar_map {sep : Char} {f : Char → Char}
    (hf : ∀ c, f c = sep ↔ c = sep) (s : List Char) :
    splitChar sep (s.map f) = (splitChar sep s).map (List.map f) := by
  induction s with
  | nil => rfl
  | cons c rest ih =>
    rw [List.map_cons, splitChar, splitChar]
    by_cases hc : c = sep
    · rw [if_pos ((hf c).mpr hc), if_pos hc, ih]
      rfl
    · rw [if_neg (fun h => hc ((hf c).mp h)), if_neg hc, ih]
      cases h : splitChar sep rest with
      | nil => exact (splitChar_ne_nil sep rest h).elim
      | cons seg segs => simp

theorem joinSep_nil_eq_join (gs : List (List Char)) : joinSep [] gs = gs.flatten := by
  induction gs with
  | nil => rfl
  | cons g rest ih =>
    cases rest with
    | nil => simp [joinSep]
    | cons g' rest' =>
      rw [joinSep_cons_cons, ih]
      simp

/-! ## Uppercasing and hex-digit lemmas -/

theorem jsToUpper_eq_colon {c : Char} (h : jsToUpper c = ':') : c = ':' := by
  unfold jsToUpper at h
  cases hf : upperTable.find? (fun p => p.1 == c) with
  | none => rw [hf] at h; exact h
  | some p =>
    rw [hf] at h
    have hmem : p ∈ upperTable := List.mem_of_find?_eq_some hf
    have : ∀ q ∈ upperTable, q.2 ≠ ':' := by decide
    exact absurd h (this p hmem)

theorem jsToUpper_colon_iff (c : Char) : jsToUpper c = ':' ↔ c = ':' := by
  constructor
  · exact jsToUpper_eq_colon
  · intro h; subst h; decide

theorem jsToUpper_ciHex {c : Char} (h : c ∈ ciHexChars) :
    jsToUpper c ∈ upHexChars := by
  revert h
  have : ∀ c ∈ ciHexChars, jsToUpper c ∈ upHexChars := by decide
  exact this c

/-- Uppercasing a raw two-hex-digits-per-octet token yields a string
matching the spec's MAC regex. -/
theorem macRegex_of_isMacTokenCI {t : List Char} (h : isMacTokenCI t = true) :
    macRegex (t.map jsToUpper) = true := by
  unfold isMacTokenCI at h
  unfold macRegex
  rw [splitChar_map jsToUpper_colon_iff]
  simp only [Bool.and_eq_true, decide_eq_true_eq, List.all_eq_true] at h ⊢
  obtain ⟨hlen, hall⟩ := h
  refine ⟨by simpa using hlen, ?_⟩
  intro g' hg'
  rcases List.mem_map.mp hg' with ⟨g, hg, rfl⟩
  obtain ⟨hglen, hchars⟩ := hall g hg
  refine ⟨by simpa using hglen, ?_⟩
  intro c' hc'
  rcases List.mem_map.mp hc' with ⟨c, hc, rfl⟩
  have hci : c ∈ ciHexChars := by simpa using hchars c hc
  simpa using jsToUpper_ciHex hci

theorem padStart2_of_le {g : List Char} (h : 2 ≤ g.length) : padStart2 g = g := by
  unfold padStart2
  rw [Nat.sub_eq_zero_of_le h]
  rfl

/-- Padding each 1–2 digit octet of a raw Darwin token yields a raw token in
two-hex-digits-per-octet form. -/
theorem isMacTokenCI_newPadToken {t : List Char} (h : isMacTokenCIShort t = true) :
    isMacTokenCI (newPadToken t) = true := by
  unfold isMacTokenCIShort at h
  unfold isMacTokenCI newPadToken
  simp only [Bool.and_eq_true, decide_eq_true_eq, List.all_eq_true] at h ⊢
  obtain ⟨hlen, hall⟩ := h
  have hnocolon : ∀ p ∈ (splitChar ':' t).map padStart2, ':' ∉ p := by
    intro p hp
    rcases List.mem_map.mp hp with ⟨g, hg, rfl⟩
    intro hcol
    unfold padStart2 at hcol
    rcases List.mem_append.mp hcol with h1 | h1
    · exact absurd (List.eq_of_mem_replicate h1) (by decide)
    · exact not_mem_of_mem_splitChar hg h1
  have hne : (splitChar ':' t).map padStart2 ≠ [] := by
    intro hcontra
    exact splitChar_ne_nil ':' t (List.map_eq_nil_iff.mp hcontra)
  rw [splitChar_joinSep hne hnocolon]
  refine ⟨by simpa using hlen, ?_⟩
  intro p hp
  rcases List.mem_map.mp hp with ⟨g, hg, rfl⟩
  obtain ⟨⟨hg1, hg2⟩, hgchars⟩ := hall g hg
  constructor
  · unfold padStart2
    simp only [List.length_append, List.length_replicate]
    omega
  · intro c hc
    unfold padStart2 at hc
    rcases List.mem_append.mp hc with h1 | h1
    · rw [List.eq_of_mem_replicate h1]
      decide
    · exact hgchars c h1

/-! ## Evaluation lemmas for the strategies and the dispatcher -/

theorem tokens_ne_nil {l : List Char} {p : List Char} (hp : p ∈ tokens l) :
    ¬p.isEmpty := by
  unfold tokens at hp
  simpa using (List.mem_filter.mp hp).2

theorem linux_parse_some {ip pingErr : List Char} {arp : ProcessResult}
    (hexit : arp.exitCode = some 0)
    (hlen : 2 ≤ (splitChar '\n' arp.stdout).length) {m : List Char}
    (hm : (if (tokens ((splitChar '\n' arp.stdout).getD 1 [])).length = 5
      then (tokens ((splitChar '\n' arp.stdout).getD 1 []))[2]?
      else (tokens ((splitChar '\n' arp.stdout).getD 1 []))[1]?) = some m) :
    linux ip pingErr arp = .ok (m.map jsToUpper) := by
  have hmem : m ∈ tokens ((splitChar '\n' arp.stdout).getD 1 []) := by
    by_cases h5 : (tokens ((splitChar '\n' arp.stdout).getD 1 [])).length = 5
    · rw [if_pos h5] at hm
      exact List.getElem?_mem hm
    · rw [if_neg h5] at hm
      exact List.getElem?_mem hm
  have hne : ¬m.isEmpty := tokens_ne_nil hmem
  unfold linux
  rw [if_neg (by simp [hexit]), if_pos hlen, hm]
  simp [hne]

theorem linux_no_table {ip pingErr : List Char} {arp : ProcessResult}
    (hexit : arp.exitCode = some 0)
    (hlen : ¬2 ≤ (splitChar '\n' arp.stdout).length) :
    linux ip pingErr arp = .error (.notFound ip) := by
  unfold linux
  rw [if_neg (by simp [hexit]), if_neg hlen]

theorem linux_no_token {ip pingErr : List Char} {arp : ProcessResult}
    (hexit : arp.exitCode = some 0)
    (hlen : 2 ≤ (splitChar '\n' arp.stdout).length)
    (hm : (if (tokens ((splitChar '\n' arp.stdout).getD 1 [])).length = 5
      then (tokens ((splitChar '\n' arp.stdout).getD 1 []))[2]?
      else (tokens ((splitChar '\n' arp.stdout).getD 1 []))[1]?) = none) :
    linux ip pingErr arp = .error (.notFound ip) := by
  unfold linux
  rw [if_neg (by simp [hexit]), if_pos hlen, hm]

theorem windowsScan_notFound {ip : List Char} {ls : List (List Char)}
    (h : ∀ l ∈ ls, (tokens l).head? ≠ some ip) :
    windowsScan ip ls = .error (.notFound ip) := by
  induction ls with
  | nil => rfl
  | cons l rest ih =>
    unfold windowsScan
    rw [if_neg (h l (List.mem_cons_self l rest))]
    exact ih (fun x hx => h x (List.mem_cons_of_mem l hx))

theorem windowsScan_found {ip : List Char} {pre : List (List Char)}
    {l : List Char} {post : List (List Char)} {m : List Char}
    (hpre : ∀ l' ∈ pre, (tokens l').head? ≠ some ip)
    (hl : (tokens l).head? = some ip) (hm : (tokens l)[1]? = some m) :
    windowsScan ip (pre ++ l :: post) = .ok ((dashToColon m).map jsToUpper) := by
  induction pre with
  | nil =>
    rw [List.nil_append]
    unfold windowsScan
    rw [if_pos hl, hm]
  | cons p rest ih =>
    rw [List.cons_append]
    unfold windowsScan
    rw [if_neg (hpre p (List.mem_cons_self p rest))]
    exact ih (fun x hx => hpre x (List.mem_cons_of_mem p hx))

theorem windows_eval {ip pingErr : List Char} {arp : ProcessResult}
    (hexit : arp.exitCode = some 0) :
    windows ip pingErr arp = windowsScan ip ((splitCRLF arp.stdout).drop 3) := by
  unfold windows
  rw [if_neg (by simp [hexit])]

theorem macintosh_parse {ip pingErr : List Char} {arp : ProcessResult}
    (hguard : ¬(arp.exitCode ≠ some 0 ∧ ¬arp.stderr.isEmpty)) :
    macintosh ip pingErr arp =
      (if (tokens arp.stdout)[3]? ≠ some (chars "no") then
        match (tokens arp.stdout)[3]? with
        | some t => .ok ((newPadToken t).map jsToUpper)
        | none => .error .typeError
      else .error (.notFound ip)) := by
  unfold macintosh
  rw [if_neg hguard]

theorem lookupStrategy_linux (ip pingErr : List Char) (arp : ProcessResult) :
    lookupStrategy (chars "linux") ip pingErr arp = some (linux ip pingErr arp) := rfl

theorem lookupStrategy_darwin (ip pingErr : List Char) (arp : ProcessResult) :
    lookupStrategy (chars "darwin") ip pingErr arp = some (macintosh ip pingErr arp) := rfl

theorem lookupStrategy_win32 (ip pingErr : List Char) (arp : ProcessResult) :
    lookupStrategy (chars "win32") ip pingErr arp = some (windows ip pingErr arp) := rfl

theorem lookup_ok {platform pingErr ip : List Char} {arp : ProcessResult}
    {m : List Char} (hip : isIP ip ≠ 0)
    (hs : lookupStrategy platform ip pingErr arp = some (.ok m)) (sep : List Char) :
    lookup platform pingErr arp ip sep = (.ok (joinSep sep (splitChar ':' m)), 2) := by
  unfold lookup
  rw [if_neg hip, hs]

/-! ## The old regex chain is the identity on fully padded tokens -/

theorem replaceZeroMid_step {x : Char} (hx : x ≠ ':') (l : List Char) :
    replaceZeroMid (x :: l) = x :: replaceZeroMid l := by
  match l with
  | [] => rfl
  | [d] => rfl
  | d :: e :: r =>
    rw [replaceZeroMid, if_neg (by simp [hx])]

theorem padSingleMid_step {x : Char} (hx : x ≠ ':') (l : List Char) :
    padSingleMid (x :: l) = x :: padSingleMid l := by
  match l with
  | [] => rfl
  | [d] => rfl
  | d :: e :: r =>
    rw [padSingleMid, if_neg (by simp [hx])]

theorem replaceZeroMid_colon_step {d e : Char} (he : e ≠ ':') (r : List Char) :
    replaceZeroMid (':' :: d :: e :: r) = ':' :: replaceZeroMid (d :: e :: r) := by
  rw [replaceZeroMid, if_neg (by simp [he])]

theorem padSingleMid_colon_step {d e : Char} (he : e ≠ ':') (r : List Char) :
    padSingleMid (':' :: d :: e :: r) = ':' :: padSingleMid (d :: e :: r) := by
  rw [padSingleMid, if_neg (by simp [he])]

theorem replaceZeroMid_append {a : List Char} (ha : ':' ∉ a) (s : List Char) :
    replaceZeroMid (a ++ s) = a ++ replaceZeroMid s := by
  induction a with
  | nil => rfl
  | cons x a' ih =>
    have hx : x ≠ ':' := fun h => ha (h ▸ List.mem_cons_self x a')
    have ha' : ':' ∉ a' := fun h => ha (List.mem_cons_of_mem x h)
    rw [List.cons_append, replaceZeroMid_step hx, ih ha', List.cons_append]

theorem padSingleMid_append {a : List Char} (ha : ':' ∉ a) (s : List Char) :
    padSingleMid (a ++ s) = a ++ padSingleMid s := by
  induction a with
  | nil => rfl
  | cons x a' ih =>
    have hx : x ≠ ':' := fun h => ha (h ▸ List.mem_cons_self x a')
    have ha' : ':' ∉ a' := fun h => ha (List.mem_cons_of_mem x h)
    rw [List.cons_append, padSingleMid_step hx, ih ha', List.cons_append]

theorem replaceZeroMid_no_colon {s : List Char} (hs : ':' ∉ s) :
    replaceZeroMid s = s := by
  have h := replaceZeroMid_append hs []
  simpa [replaceZeroMid] using h

theorem padSingleMid_no_colon {s : List Char} (hs : ':' ∉ s) :
    padSingleMid s = s := by
  have h := padSingleMid_append hs []
  simpa [padSingleMid] using h

theorem joinSep_two_head {d e : Char} (g'' : List Char) (rest : List (List Char)) :
    ∃ k, joinSep [':'] ((d :: e :: g'') :: rest) = d :: e :: k := by
  cases rest with
  | nil => exact ⟨g'', rfl⟩
  | cons g' rest' =>
    exact ⟨g'' ++ ':' :: joinSep [':'] (g' :: rest'),
      by rw [joinSep_cons_cons]; simp⟩

theorem replaceZeroMid_joinSep {gs : List (List Char)}
    (h : ∀ g ∈ gs, ':' ∉ g ∧ 2 ≤ g.length) :
    replaceZeroMid (joinSep [':'] gs) = joinSep [':'] gs := by
  induction gs with
  | nil => rfl
  | cons g rest ih =>
    cases rest with
    | nil => exact replaceZeroMid_no_colon (h g (List.mem_cons_self g [])).1
    | cons g' rest' =>
      have hg := h g (List.mem_cons_self g _)
      have hg' := h g' (List.mem_cons_of_mem g (List.mem_cons_self g' _))
      obtain ⟨d, e, g'', rfl⟩ : ∃ d e g'', g' = d :: e :: g'' := by
        match g', hg'.2 with
        | x :: y :: z, _ => exact ⟨x, y, z, rfl⟩
      have he : e ≠ ':' := fun hcontra =>
        hg'.1 (hcontra ▸ List.mem_cons_of_mem d (List.mem_cons_self e g''))
      obtain ⟨k, hk⟩ := joinSep_two_head (d := d) (e := e) g'' rest'
      rw [joinSep_cons_cons]
      have hrw : g ++ [':'] ++ joinSep [':'] ((d :: e :: g'') :: rest') =
          g ++ ':' :: joinSep [':'] ((d :: e :: g'') :: rest') := by simp
      rw [hrw, replaceZeroMid_append hg.1, hk, replaceZeroMid_colon_step he,
        ← hk, ih (fun x hx => h x (List.mem_cons_of_mem g hx))]

theorem padSingleMid_joinSep {gs : List (List Char)}
    (h : ∀ g ∈ gs, ':' ∉ g ∧ 2 ≤ g.length) :
    padSingleMid (joinSep [':'] gs) = joinSep [':'] gs := by
  induction gs with
  | nil => rfl
  | cons g rest ih =>
    cases rest with
    | nil => exact padSingleMid_no_colon (h g (List.mem_cons_self g [])).1
    | cons g' rest' =>
      have hg := h g (List.mem_cons_self g _)
      have hg' := h g' (List.mem_cons_of_mem g (List.mem_cons_self g' _))
      obtain ⟨d, e, g'', rfl⟩ : ∃ d e g'', g' = d :: e :: g'' := by
        match g', hg'.2 with
        | x :: y :: z, _ => exact ⟨x, y, z, rfl⟩
      have he : e ≠ ':' := fun hcontra =>
        hg'.1 (hcontra ▸ List.mem_cons_of_mem d (List.mem_cons_self e g''))
      obtain ⟨k, hk⟩ := joinSep_two_head (d := d) (e := e) g'' rest'
      rw [joinSep_cons_cons]
      have hrw : g ++ [':'] ++ joinSep [':'] ((d :: e :: g'') :: rest') =
          g ++ ':' :: joinSep [':'] ((d :: e :: g'') :: rest') := by simp
      rw [hrw, padSingleMid_append hg.1, hk, padSingleMid_colon_step he,
        ← hk, ih (fun x hx => h x (List.mem_cons_of_mem g hx))]

theorem joinSep_getLast {gs : List (List Char)} {g gN : List Char}
    (h : (g :: gs).getLast? = some gN) :
    ∃ a, joinSep [':'] (g :: gs) = a ++ gN := by
  induction gs generalizing g with
  | nil =>
    simp only [List.getLast?_singleton, Option.some.injEq] at h
    exact ⟨[], by simp [joinSep, h]⟩
  | cons g' gs' ih =>
    rw [List.getLast?_cons_cons] at h
    obtain ⟨a, ha⟩ := ih h
    exact ⟨g ++ ':' :: a, by rw [joinSep_cons_cons, ha]; simp⟩

theorem padLeadOld_joinSep {gs : List (List Char)}
    (h : ∀ g ∈ gs, ':' ∉ g ∧ 2 ≤ g.length) (hne : gs ≠ []) :
    padLeadOld (joinSep [':'] gs) = joinSep [':'] gs := by
  obtain ⟨g, rest, rfl⟩ : ∃ g rest, gs = g :: rest := by
    match gs, hne with
    | g :: rest, _ => exact ⟨g, rest, rfl⟩
  have hg := h g (List.mem_cons_self g rest)
  obtain ⟨d, e, g'', rfl⟩ : ∃ d e g'', g = d :: e :: g'' := by
    match g, hg.2 with
    | x :: y :: z, _ => exact ⟨x, y, z, rfl⟩
  have he : e ≠ ':' := fun hcontra =>
    hg.1 (hcontra ▸ List.mem_cons_of_mem d (List.mem_cons_self e g''))
  obtain ⟨k, hk⟩ := joinSep_two_head (d := d) (e := e) g'' rest
  rw [hk]
  unfold padLeadOld
  rw [if_neg]
  intro hcontra
  simp only [List.take_succ_cons, List.take_zero, List.cons.injEq] at hcontra
  exact he hcontra.2.1

theorem padTrailOld_joinSep {gs : List (List Char)}
    (h : ∀ g ∈ gs, ':' ∉ g ∧ 2 ≤ g.length) (hne : gs ≠ []) :
    padTrailOld (joinSep [':'] gs) = joinSep [':'] gs := by
  obtain ⟨g, rest, rfl⟩ : ∃ g rest, gs = g :: rest := by
    match gs, hne with
    | g :: rest, _ => exact ⟨g, rest, rfl⟩
  cases hL : (g :: rest).getLast? with
  | none => simp at hL
  | some gN =>
    have hmem : gN ∈ g :: rest := List.mem_of_mem_getLast? hL
    have hgN := h gN hmem
    obtain ⟨a, ha⟩ := joinSep_getLast hL
    obtain ⟨c1, c2, tl, hrev⟩ : ∃ c1 c2 tl, gN.reverse = c1 :: c2 :: tl := by
      have hlen : 2 ≤ gN.reverse.length := by simpa using hgN.2
      match gN.reverse, hlen with
      | x :: y :: z, _ => exact ⟨x, y, z, rfl⟩
    have hc2 : c2 ≠ ':' := by
      intro hcontra
      have : c2 ∈ gN.reverse := hrev ▸ List.mem_cons_of_mem c1 (List.mem_cons_self c2 tl)
      exact hgN.1 (hcontra ▸ List.mem_reverse.mp this)
    unfold padTrailOld
    rw [if_neg]
    intro hcontra
    rw [ha, List.reverse_append, hrev] at hcontra
    simp only [List.cons_append, List.take_succ_cons, List.take_zero,
      List.cons.injEq] at hcontra
    exact hc2 hcontra.2.1

/-- Both revisions of the Darwin padding act as the identity on tokens whose
octets all have at least two characters. -/
theorem oldPadToken_id {t : List Char}
    (h : ∀ g ∈ splitChar ':' t, 2 ≤ g.length) : oldPadToken t = t := by
  have hgs : ∀ g ∈ splitChar ':' t, ':' ∉ g ∧ 2 ≤ g.length :=
    fun g hg => ⟨not_mem_of_mem_splitChar hg, h g hg⟩
  have hne : splitChar ':' t ≠ [] := splitChar_ne_nil ':' t
  have hj := joinSep_splitChar ':' t
  unfold oldPadToken
  rw [← hj, padLeadOld_joinSep hgs hne, replaceZeroMid_joinSep hgs,
    padTrailOld_joinSep hgs hne, padSingleMid_joinSep hgs]

theorem newPadToken_id {t : List Char}
    (h : ∀ g ∈ splitChar ':' t, 2 ≤ g.length) : newPadToken t = t := by
  unfold newPadToken
  have hmap : (splitChar ':' t).map padStart2 = splitChar ':' t := by
    conv_rhs => rw [← List.map_id (splitChar ':' t)]
    apply List.map_congr_left
    intro g hg
    exact padStart2_of_le (h g hg)
  rw [hmap, joinSep_splitChar]

theorem flatten_length_two {gs : List (List Char)} (h : ∀ g ∈ gs, g.length = 2) :
    gs.flatten.length = 2 * gs.length := by
  induction gs with
  | nil => rfl
  | cons g rest ih =>
    rw [List.flatten_cons, List.length_append, h g (List.mem_cons_self g rest),
      ih (fun x hx => h x (List.mem_cons_of_mem g hx)), List.length_cons]
    ring

/-! ## The claims -/

/-- C2: for every string `ip` that is not a syntactically valid IPv4 or IPv6
address, `lookup(ip, sep)` fails with the invalid-address error before
spawning any child process (spawn count 0), for every separator and every
platform. -/
theorem c2_invalid_ip_fails_fast (platform pingErr : List Char)
    (arp : ProcessResult) (ip sep : List Char) (h : isIP ip = 0) :
    lookup platform pingErr arp ip sep = (.error (.invalidAddress ip), 0) := by
  unfold lookup
  rw [if_pos h]

/-- Witness for C2: the empty string, a partial dotted-quad, an extra-octet
form and a non-numeric string are all rejected with no process spawned. -/
theorem c2_witness :
    isIP (chars "") = 0 ∧ isIP (chars "192.168.1") = 0
    ∧ isIP (chars "192.168.1.1.1") = 0 ∧ isIP (chars "not-an-ip") = 0
    ∧ lookup (chars "linux") [] ⟨some 0, [], []⟩ (chars "") (chars ":") =
        (.error (.invalidAddress (chars "")), 0)
    ∧ lookup (chars "linux") [] ⟨some 0, [], []⟩ (chars "192.168.1") (chars "-") =
        (.error (.invalidAddress (chars "192.168.1")), 0)
    ∧ lookup (chars "win32") [] ⟨some 0, [], []⟩ (chars "192.168.1.1.1") [] =
        (.error (.invalidAddress (chars "192.168.1.1.1")), 0)
    ∧ lookup (chars "darwin") [] ⟨some 0, [], []⟩ (chars "not-an-ip") (chars ":") =
        (.error (.invalidAddress (chars "not-an-ip")), 0) :=
  ⟨by decide, by decide, by decide, by decide,
   c2_invalid_ip_fails_fast _ _ _ _ _ (by decide),
   c2_invalid_ip_fails_fast _ _ _ _ _ (by decide),
   c2_invalid_ip_fails_fast _ _ _ _ _ (by decide),
   c2_invalid_ip_fails_fast _ _ _ _ _ (by decide)⟩

/-- C4: on the Linux strategy with a zero exit code, the stdout buffer is
split into lines; with at least two lines the second line is tokenized on
spaces dropping empties; the MAC is the token at index 2 when exactly five
tokens result and the token at index 1 otherwise, returned uppercased; with
fewer than two lines ("no data line") — or a second line without such a
token — the strategy fails with the not-found error. -/
theorem c4_linux_parse (ip pingErr : List Char) (arp : ProcessResult)
    (hexit : arp.exitCode = some 0) :
    (2 ≤ (splitChar '\n' arp.stdout).length →
      (tokens ((splitChar '\n' arp.stdout).getD 1 [])).length = 5 →
      ∀ m, (tokens ((splitChar '\n' arp.stdout).getD 1 []))[2]? = some m →
      linux ip pingErr arp = .ok (m.map jsToUpper))
    ∧ (2 ≤ (splitChar '\n' arp.stdout).length →
      (tokens ((splitChar '\n' arp.stdout).getD 1 [])).length ≠ 5 →
      ∀ m, (tokens ((splitChar '\n' arp.stdout).getD 1 []))[1]? = some m →
      linux ip pingErr arp = .ok (m.map jsToUpper))
    ∧ (¬2 ≤ (splitChar '\n' arp.stdout).length →
      linux ip pingErr arp = .error (.notFound ip))
    ∧ (2 ≤ (splitChar '\n' arp.stdout).length →
      (tokens ((splitChar '\n' arp.stdout).getD 1 [])).length ≠ 5 →
      (tokens ((splitChar '\n' arp.stdout).getD 1 []))[1]? = none →
      linux ip pingErr arp = .error (.notFound ip)) := by
  refine ⟨?_, ?_, ?_, ?_⟩
  · intro hlen h5 m hm
    exact linux_parse_some hexit hlen (by rw [if_pos h5]; exact hm)
  · intro hlen h5 m hm
    exact linux_parse_some hexit hlen (by rw [if_neg h5]; exact hm)
  · intro hlen
    exact linux_no_table hexit hlen
  · intro hlen h5 hm
    exact linux_no_token hexit hlen (by rw [if_neg h5]; exact hm)

/-- Witness for C4: a five-token data line, a three-token data line, a
headerless single-line table and an empty data line. -/
theorem c4_witness :
    linux (chars "1.2.3.4") []
      ⟨some 0, chars "h\n1.2.3.4 ether aa:bb:cc:dd:ee:ff C eth0", []⟩ =
      .ok (chars "AA:BB:CC:DD:EE:FF")
    ∧ linux (chars "1.2.3.4") [] ⟨some 0, chars "h\n1.2.3.4 foo x", []⟩ =
      .ok (chars "FOO")
    ∧ linux (chars "1.2.3.4") [] ⟨some 0, chars "one line only", []⟩ =
      .error (.notFound (chars "1.2.3.4"))
    ∧ linux (chars "1.2.3.4") [] ⟨some 0, chars "h\n", []⟩ =
      .error (.notFound (chars "1.2.3.4")) :=
  ⟨(c4_linux_parse (chars "1.2.3.4") []
      ⟨some 0, chars "h\n1.2.3.4 ether aa:bb:cc:dd:ee:ff C eth0", []⟩ rfl).1
      (by decide) (by decide) (chars "aa:bb:cc:dd:ee:ff") rfl,
   (c4_linux_parse (chars "1.2.3.4") []
      ⟨some 0, chars "h\n1.2.3.4 foo x", []⟩ rfl).2.1
      (by decide) (by decide) (chars "foo") rfl,
   (c4_linux_parse (chars "1.2.3.4") []
      ⟨some 0, chars "one line only", []⟩ rfl).2.2.1 (by decide),
   (c4_linux_parse (chars "1.2.3.4") []
      ⟨some 0, chars "h\n", []⟩ rfl).2.2.2 (by decide) (by decide) (by decide)⟩

/-- C5: on the Windows strategy with a zero exit code, stdout is split on
CRLF; scanning from line index 3 on, each line is tokenized on spaces
dropping empties, and for the first line whose first token equals the
requested `ip` exactly, the second token with every dash replaced by a colon
is returned uppercased; if no line from index 3 to the end matches, the
strategy fails with the not-found error. -/
theorem c5_windows_parse (ip pingErr : List Char) (arp : ProcessResult)
    (hexit : arp.exitCode = some 0) :
    ((∀ l ∈ (splitCRLF arp.stdout).drop 3, (tokens l).head? ≠ some ip) →
      windows ip pingErr arp = .error (.notFound ip))
    ∧ (∀ pre l post m, (splitCRLF arp.stdout).drop 3 = pre ++ l :: post →
      (∀ l' ∈ pre, (tokens l').head? ≠ some ip) →
      (tokens l).head? = some ip → (tokens l)[1]? = some m →
      windows ip pingErr arp = .ok ((dashToColon m).map jsToUpper)) := by
  constructor
  · intro h
    rw [windows_eval hexit]
    exact windowsScan_notFound h
  · intro pre l post m hsplit hpre hl hm
    rw [windows_eval hexit, hsplit]
    exact windowsScan_found hpre hl hm

/-- Witness for C5: a matching row in the fourth CRLF line (with the
banner skipped, an earlier non-matching row ignored) and a table with no
matching row. -/
theorem c5_witness :
    windows (chars "192.168.1.7") []
      ⟨some 0, chars
        "Interface: 192.168.1.2\r\n\r\n  Internet Address      Physical Address\r\n  192.168.1.1           11-22-33-44-55-66\r\n  192.168.1.7           aa-bb-cc-dd-ee-ff", []⟩ =
      .ok (chars "AA:BB:CC:DD:EE:FF")
    ∧ windows (chars "192.168.1.7") []
      ⟨some 0, chars
        "Interface: 192.168.1.2\r\n\r\n  Internet Address      Physical Address\r\n  192.168.1.1           11-22-33-44-55-66", []⟩ =
      .error (.notFound (chars "192.168.1.7")) :=
  ⟨(c5_windows_parse (chars "192.168.1.7") []
      ⟨some 0, chars
        "Interface: 192.168.1.2\r\n\r\n  Internet Address      Physical Address\r\n  192.168.1.1           11-22-33-44-55-66\r\n  192.168.1.7           aa-bb-cc-dd-ee-ff", []⟩ rfl).2
      [chars "  192.168.1.1           11-22-33-44-55-66"]
      (chars "  192.168.1.7           aa-bb-cc-dd-ee-ff") []
      (chars "aa-bb-cc-dd-ee-ff") rfl (by decide) (by decide) rfl,
   (c5_windows_parse (chars "192.168.1.7") []
      ⟨some 0, chars
        "Interface: 192.168.1.2\r\n\r\n  Internet Address      Physical Address\r\n  192.168.1.1           11-22-33-44-55-66", []⟩ rfl).1
      (by decide)⟩

/-- C6: on the Darwin strategy on the parse path, the whole stdout buffer is
tokenized on spaces dropping empties and the token at index 3 is taken; if
that token is the literal string `no` the strategy fails with the not-found
error; otherwise every colon-separated octet of the token is zero-padded to
two digits and the result is uppercased, so `a:b:c:d:e:f` yields
`0A:0B:0C:0D:0E:0F` and `0:1a:2:3:4:5` yields `00:1A:02:03:04:05`. -/
theorem c6_darwin_parse (ip pingErr : List Char) (arp : ProcessResult)
    (hexit : arp.exitCode = some 0) :
    ((tokens arp.stdout)[3]? = some (chars "no") →
      macintosh ip pingErr arp = .error (.notFound ip))
    ∧ (∀ t, (tokens arp.stdout)[3]? = some t → t ≠ chars "no" →
      macintosh ip pingErr arp = .ok ((newPadToken t).map jsToUpper))
    ∧ (newPadToken (chars "a:b:c:d:e:f")).map jsToUpper = chars "0A:0B:0C:0D:0E:0F"
    ∧ (newPadToken (chars "0:1a:2:3:4:5")).map jsToUpper = chars "00:1A:02:03:04:05" := by
  have hguard : ¬(arp.exitCode ≠ some 0 ∧ ¬arp.stderr.isEmpty) := by simp [hexit]
  refine ⟨?_, ?_, by decide, by decide⟩
  · intro hno
    rw [macintosh_parse hguard, if_neg (by simp [hno])]
  · intro t ht hne
    rw [macintosh_parse hguard, if_pos (by simp [ht, hne]), ht]

/-- Witness for C6: a `no entry` row fails with not-found; a mixed
one/two-digit token is padded and uppercased. -/
theorem c6_witness :
    macintosh (chars "1.2.3.4") []
      ⟨some 0, chars "? (1.2.3.4) at no entry on en0", []⟩ =
      .error (.notFound (chars "1.2.3.4"))
    ∧ macintosh (chars "1.2.3.4") []
      ⟨some 0, chars "? (1.2.3.4) at 0:1a:2:3:4:5 on en0", []⟩ =
      .ok (chars "00:1A:02:03:04:05") :=
  ⟨(c6_darwin_parse (chars "1.2.3.4") []
      ⟨some 0, chars "? (1.2.3.4) at no entry on en0", []⟩ rfl).1 rfl,
   (c6_darwin_parse (chars "1.2.3.4") []
      ⟨some 0, chars "? (1.2.3.4) at 0:1a:2:3:4:5 on en0", []⟩ rfl).2.1
      (chars "0:1a:2:3:4:5") rfl (by decide)⟩

/-- C7: on the Darwin strategy, a non-zero (or null) exit code causes the
process-error failure if and only if the captured stderr is non-empty; with
such an exit code and empty stderr, parsing proceeds exactly as with exit
code zero. -/
theorem c7_darwin_exit_policy (ip pingErr : List Char) (code : Option Int)
    (out err : List Char) (hcode : code ≠ some 0) :
    (macintosh ip pingErr ⟨code, out, err⟩ =
        .error (.processError (chars "arp") [chars "arp", chars "-n", ip]
          code err pingErr)
      ↔ err ≠ [])
    ∧ macintosh ip pingErr ⟨code, out, []⟩ =
        macintosh ip pingErr ⟨some 0, out, []⟩ := by
  constructor
  · constructor
    · intro heq
      intro hnil
      subst hnil
      rw [macintosh_parse (by simp)] at heq
      split at heq
      · split at heq <;> simp_all
      · simp at heq
    · intro hne
      unfold macintosh
      rw [if_pos ⟨hcode, by simpa [List.isEmpty_iff] using hne⟩]
  · rw [macintosh_parse (by simp), macintosh_parse (by simp)]

/-- Witness for C7: exit code 1 with non-empty stderr is fatal; exit code 1
with empty stderr parses exactly like exit code 0. -/
theorem c7_witness :
    macintosh (chars "1.2.3.4") [] ⟨some 1, chars "out", chars "boom"⟩ =
      .error (.processError (chars "arp") [chars "arp", chars "-n", chars "1.2.3.4"]
        (some 1) (chars "boom") [])
    ∧ macintosh (chars "1.2.3.4") []
        ⟨some 1, chars "? (1.2.3.4) at 0:1:2:3:4:5 on en0", []⟩ =
      macintosh (chars "1.2.3.4") []
        ⟨some 0, chars "? (1.2.3.4) at 0:1:2:3:4:5 on en0", []⟩ :=
  ⟨((c7_darwin_exit_policy (chars "1.2.3.4") [] (some 1) (chars "out")
      (chars "boom") (by decide)).1).mpr (by decide),
   (c7_darwin_exit_policy (chars "1.2.3.4") [] (some 1)
      (chars "? (1.2.3.4) at 0:1:2:3:4:5 on en0") (chars "boom") (by decide)).2⟩

/-- C9: `get_gateway_ipv4` and `get_gateway_ipv6` never reject — for every
outcome of the underlying routing-table introspection, a failure is absorbed
and the call resolves (to `none` standing for `undefined`). -/
theorem c9_gateway_never_rejects (o4 o6 : Except (List Char) GatewayResult) :
    (∃ g, get_gateway_ipv4 o4 = .ok g)
    ∧ (∀ e, get_gateway_ipv4 o4 ≠ .error e)
    ∧ (∃ g, get_gateway_ipv6 o6 = .ok g)
    ∧ (∀ e, get_gateway_ipv6 o6 ≠ .error e) := by
  refine ⟨?_, ?_, ?_, ?_⟩
  · cases o4 <;> exact ⟨_, rfl⟩
  · intro e; cases o4 <;> simp [get_gateway_ipv4]
  · cases o6 <;> exact ⟨_, rfl⟩
  · intro e; cases o6 <;> simp [get_gateway_ipv6]

/-- C3: the separator post-processing of the dispatcher is a pure function
of the strategy's MAC string — split on `:` and rejoin with the caller's
separator — so on the same underlying table entry the separators `:`, `-`
and the empty string yield the same six octets reformatted, and the empty
separator yields exactly twelve uppercase hex characters. -/
theorem c3_separator_substitution (platform pingErr ip m : List Char)
    (arp : ProcessResult) (hip : isIP ip ≠ 0)
    (hs : lookupStrategy platform ip pingErr arp = some (.ok m)) :
    (∀ sep, lookup platform pingErr arp ip sep =
      (.ok (joinSep sep (splitChar ':' m)), 2))
    ∧ (macRegex m = true →
      lookup platform pingErr arp ip (chars ":") = (.ok m, 2)
      ∧ lookup platform pingErr arp ip (chars "-") =
          (.ok (joinSep (chars "-") (splitChar ':' m)), 2)
      ∧ lookup platform pingErr arp ip [] = (.ok ((splitChar ':' m).flatten), 2)
      ∧ (splitChar ':' m).length = 6
      ∧ macRegexNoSep ((splitChar ':' m).flatten) = true) := by
  refine ⟨fun sep => lookup_ok hip hs sep, fun hm => ?_⟩
  unfold macRegex at hm
  simp only [Bool.and_eq_true, decide_eq_true_eq, List.all_eq_true] at hm
  obtain ⟨hlen, hall⟩ := hm
  refine ⟨?_, lookup_ok hip hs (chars "-"), ?_, hlen, ?_⟩
  · have h := lookup_ok hip hs (chars ":")
    rw [h]
    have hcolon : chars ":" = [':'] := rfl
    rw [hcolon, joinSep_splitChar]
  · have h := lookup_ok hip hs []
    rw [h, joinSep_nil_eq_join]
  · unfold macRegexNoSep
    simp only [Bool.and_eq_true, decide_eq_true_eq, List.all_eq_true]
    constructor
    · rw [flatten_length_two (fun g hg => (hall g hg).1), hlen]
    · intro c hc
      rcases List.mem_flatten.mp hc with ⟨g, hg, hcg⟩
      exact (hall g hg).2 c hcg

/-- Witness for C3: the same Linux table entry rendered with `:`, `-` and
the empty separator. -/
theorem c3_witness :
    lookup (chars "linux") []
      ⟨some 0, chars "h\n192.168.1.1 ether aa:bb:cc:dd:ee:ff C eth0", []⟩
      (chars "192.168.1.1") (chars ":") = (.ok (chars "AA:BB:CC:DD:EE:FF"), 2)
    ∧ lookup (chars "linux") []
      ⟨some 0, chars "h\n192.168.1.1 ether aa:bb:cc:dd:ee:ff C eth0", []⟩
      (chars "192.168.1.1") (chars "-") = (.ok (chars "AA-BB-CC-DD-EE-FF"), 2)
    ∧ lookup (chars "linux") []
      ⟨some 0, chars "h\n192.168.1.1 ether aa:bb:cc:dd:ee:ff C eth0", []⟩
      (chars "192.168.1.1") [] = (.ok (chars "AABBCCDDEEFF"), 2)
    ∧ macRegexNoSep (chars "AABBCCDDEEFF") = true := by
  have h := c3_separator_substitution (chars "linux") [] (chars "192.168.1.1")
    (chars "AA:BB:CC:DD:EE:FF")
    ⟨some 0, chars "h\n192.168.1.1 ether aa:bb:cc:dd:ee:ff C eth0", []⟩
    (by decide) rfl
  obtain ⟨h1, h2, h3, _, h5⟩ := h.2 (by decide)
  exact ⟨h1, h2, h3, h5⟩

/-- Counterexample to C1 as stated: the parsers do no validation, so a
successful `lookup(ip, ':')` can return a string that is not a MAC at all —
here the Linux strategy returns the raw second token `FOO`. -/
theorem c1_counterexample :
    lookup (chars "linux") [] ⟨some 0, chars "h\n1.2.3.4 foo x", []⟩
      (chars "192.168.1.1") (chars ":") = (.ok (chars "FOO"), 2)
    ∧ macRegex (chars "FOO") = false :=
  ⟨rfl, rfl⟩

/-- C1 (amended): for every successful `lookup(ip, ':')` whose strategy
extracted a raw hardware-address token in colon-separated six-octet hex form
(two hex digits per octet on Linux; two per octet after dash replacement on
Windows; one or two per octet on Darwin), the returned string matches
the regex of six colon-separated uppercase hex pairs. -/
theorem c1_amended :
    (∀ pingErr arp ip m, isIP ip ≠ 0 → arp.exitCode = some 0 →
      2 ≤ (splitChar '\n' arp.stdout).length →
      (if (tokens ((splitChar '\n' arp.stdout).getD 1 [])).length = 5
        then (tokens ((splitChar '\n' arp.stdout).getD 1 []))[2]?
        else (tokens ((splitChar '\n' arp.stdout).getD 1 []))[1]?) = some m →
      isMacTokenCI m = true →
      lookup (chars "linux") pingErr arp ip (chars ":") =
        (.ok (m.map jsToUpper), 2)
      ∧ macRegex (m.map jsToUpper) = true)
    ∧ (∀ pingErr arp ip pre l post m, isIP ip ≠ 0 → arp.exitCode = some 0 →
      (splitCRLF arp.stdout).drop 3 = pre ++ l :: post →
      (∀ l' ∈ pre, (tokens l').head? ≠ some ip) →
      (tokens l).head? = some ip → (tokens l)[1]? = some m →
      isMacTokenCI (dashToColon m) = true →
      lookup (chars "win32") pingErr arp ip (chars ":") =
        (.ok ((dashToColon m).map jsToUpper), 2)
      ∧ macRegex ((dashToColon m).map jsToUpper) = true)
    ∧ (∀ pingErr arp ip m, isIP ip ≠ 0 → arp.exitCode = some 0 →
      (tokens arp.stdout)[3]? = some m → m ≠ chars "no" →
      isMacTokenCIShort m = true →
      lookup (chars "darwin") pingErr arp ip (chars ":") =
        (.ok ((newPadToken m).map jsToUpper), 2)
      ∧ macRegex ((newPadToken m).map jsToUpper) = true) := by
  have hcolon : chars ":" = [':'] := rfl
  refine ⟨?_, ?_, ?_⟩
  · intro pingErr arp ip m hip hexit hlen hm hci
    have hstrat : linux ip pingErr arp = .ok (m.map jsToUpper) :=
      linux_parse_some hexit hlen hm
    have hlook := lookup_ok hip
      (by rw [lookupStrategy_linux, hstrat]) (chars ":")
    rw [hlook, hcolon, joinSep_splitChar]
    exact ⟨rfl, macRegex_of_isMacTokenCI hci⟩
  · intro pingErr arp ip pre l post m hip hexit hsplit hpre hl hm hci
    have hstrat : windows ip pingErr arp = .ok ((dashToColon m).map jsToUpper) := by
      rw [windows_eval hexit, hsplit]
      exact windowsScan_found hpre hl hm
    have hlook := lookup_ok hip
      (by rw [lookupStrategy_win32, hstrat]) (chars ":")
    rw [hlook, hcolon, joinSep_splitChar]
    exact ⟨rfl, macRegex_of_isMacTokenCI hci⟩
  · intro pingErr arp ip m hip hexit hm hne hci
    have hguard : ¬(arp.exitCode ≠ some 0 ∧ ¬arp.stderr.isEmpty) := by
      simp [hexit]
    have hstrat : macintosh ip pingErr arp = .ok ((newPadToken m).map jsToUpper) := by
      rw [macintosh_parse hguard, if_pos (by simp [hm, hne]), hm]
    have hlook := lookup_ok hip
      (by rw [lookupStrategy_darwin, hstrat]) (chars ":")
    rw [hlook, hcolon, joinSep_splitChar]
    exact ⟨rfl, macRegex_of_isMacTokenCI (isMacTokenCI_newPadToken hci)⟩

/-- Witness for the amended C1: a canonical token on each of the three
platform strategies yields a regex-conforming MAC. -/
theorem c1_witness :
    (lookup (chars "linux") []
      ⟨some 0, chars "h\n192.168.1.1 ether aa:bb:cc:dd:ee:ff C eth0", []⟩
      (chars "192.168.1.1") (chars ":") = (.ok (chars "AA:BB:CC:DD:EE:FF"), 2)
    ∧ macRegex (chars "AA:BB:CC:DD:EE:FF") = true)
    ∧ (lookup (chars "win32") []
      ⟨some 0, chars "a\r\nb\r\nc\r\n  192.168.1.7  aa-bb-cc-dd-ee-ff  dynamic", []⟩
      (chars "192.168.1.7") (chars ":") = (.ok (chars "AA:BB:CC:DD:EE:FF"), 2)
    ∧ macRegex (chars "AA:BB:CC:DD:EE:FF") = true)
    ∧ (lookup (chars "darwin") []
      ⟨some 0, chars "? (192.168.1.9) at 0:1a:2:3:4:5 on en0", []⟩
      (chars "192.168.1.9") (chars ":") = (.ok (chars "00:1A:02:03:04:05"), 2)
    ∧ macRegex (chars "00:1A:02:03:04:05") = true) :=
  ⟨c1_amended.1 []
      ⟨some 0, chars "h\n192.168.1.1 ether aa:bb:cc:dd:ee:ff C eth0", []⟩
      (chars "192.168.1.1") (chars "aa:bb:cc:dd:ee:ff")
      (by decide) rfl (by decide) rfl (by decide),
   c1_amended.2.1 []
      ⟨some 0, chars "a\r\nb\r\nc\r\n  192.168.1.7  aa-bb-cc-dd-ee-ff  dynamic", []⟩
      (chars "192.168.1.7") []
      (chars "  192.168.1.7  aa-bb-cc-dd-ee-ff  dynamic") []
      (chars "aa-bb-cc-dd-ee-ff")
      (by decide) rfl rfl (by decide) (by decide) rfl (by decide),
   c1_amended.2.2 []
      ⟨some 0, chars "? (192.168.1.9) at 0:1a:2:3:4:5 on en0", []⟩
      (chars "192.168.1.9") (chars "0:1a:2:3:4:5")
      (by decide) rfl rfl (by decide) (by decide)⟩

/-- Counterexample to C8 as stated: a table-reader process terminated by the
timeout kill delivers a null exit code to the `close` handler, and the
lookup fails with a process error carrying that null code — not with a
distinct timeout error (no code path ever constructs one). -/
theorem c8_counterexample :
    lookup (chars "linux") [] ⟨none, [], []⟩ (chars "192.168.1.1") (chars ":") =
      (.error (.processError (chars "arp")
        [chars "arp", chars "-n", chars "192.168.1.1"] none [] []), 2)
    ∧ ArpError.processError (chars "arp")
        [chars "arp", chars "-n", chars "192.168.1.1"] none [] [] ≠
        ArpError.timeout :=
  ⟨rfl, by decide⟩

/-- C8 (amended): each spawned process is guarded by a kill timer of
`PROCESS_TIMEOUT` = 10 000 milliseconds; a table reader that dies from that
kill reports a null exit code and the Linux and Windows strategies then fail
with the process error naming that null code — never with a distinct
timeout error, which no code path constructs. -/
theorem c8_amended :
    PROCESS_TIMEOUT = 10 * 1000
    ∧ (∀ ip pingErr out err,
      linux ip pingErr ⟨none, out, err⟩ =
        .error (.processError (chars "arp") [chars "arp", chars "-n", ip]
          none err pingErr)
      ∧ windows ip pingErr ⟨none, out, err⟩ =
        .error (.processError (chars "arp") [chars "arp", chars "-a", ip]
          none err pingErr))
    ∧ (∀ f a c e p, ArpError.processError f a c e p ≠ ArpError.timeout) := by
  refine ⟨rfl, ?_, ?_⟩
  · intro ip pingErr out err
    constructor
    · unfold linux
      rw [if_pos (by simp)]
    · unfold windows
      rw [if_pos (by simp)]
  · intro f a c e p h
    exact ArpError.noConfusion h

/-- Counterexample to C10 as stated: the two revisions of the Darwin octet
padding are not extensionally equal — the old regex chain leaves a bare `0`
unchanged and misses alternate single-digit octets, while the new
split/padStart/join transform pads every octet. -/
theorem c10_counterexample :
    oldPadToken (chars "0") = chars "0"
    ∧ newPadToken (chars "0") = chars "00"
    ∧ oldPadToken (chars "a:b:c:d:e:f") = chars "a:0b:c:0d:e:f"
    ∧ newPadToken (chars "a:b:c:d:e:f") = chars "0a:0b:0c:0d:0e:0f"
    ∧ oldPadToken (chars "0") ≠ newPadToken (chars "0") :=
  ⟨rfl, rfl, rfl, rfl, by decide⟩

/-- C10 (amended): the two revisions of the Darwin octet padding agree —
both acting as the identity — on every token whose colon-separated octets
all have at least two characters; on tokens with a single-character octet
they can differ. -/
theorem c10_amended (t : List Char)
    (h : ∀ g ∈ splitChar ':' t, 2 ≤ g.length) :
    oldPadToken t = newPadToken t ∧ oldPadToken t = t := by
  rw [oldPadToken_id h, newPadToken_id h]
  exact ⟨rfl, rfl⟩

/-- Witness for the amended C10: both revisions leave an already padded
token unchanged. -/
theorem c10_witness :
    oldPadToken (chars "aa:bb:cc:dd:ee:ff") = newPadToken (chars "aa:bb:cc:dd:ee:ff")
    ∧ oldPadToken (chars "aa:bb:cc:dd:ee:ff") = chars "aa:bb:cc:dd:ee:ff" :=
  c10_amended (chars "aa:bb:cc:dd:ee:ff") (by decide)
